import Mathlib

/-!
Verification of the reconciliation engine of `control_actas`
(`control_normal/control_actas/{procesar_actas,pipeline_mes,excel_utils,config}.py`).

Strings are modelled as `List Char`.  Python floats are modelled as exact
rationals (`ℚ`): all the numeric claims are about comparisons and products
of currency amounts, which the code performs directly on the parsed values.
Cell values that may be `None` / unparsable are modelled as `Option`.
-/

namespace ControlActas

abbrev Str := List Char

/-- Character class of the regular expression `\s` restricted to ASCII
(the only whitespace that can occur at the points where the code applies
`\s+` and `str.strip`, since the preceding substitution maps every
character outside `[a-z0-9 ]` to a space). -/
def esEspacioRE (c : Char) : Bool :=
  c == ' ' || c == '\t' || c == '\n' || c == '\x0b' || c == '\x0c' || c == '\r'

/-- Character class `[a-z0-9 ]` of the substitution
`re.sub(r"[^a-z0-9 ]", " ", s)` in `normalizar`. -/
def esClase (c : Char) : Bool :=
  ('a' ≤ c && c ≤ 'z') || ('0' ≤ c && c ≤ '9') || c == ' '

/-- `re.sub(r"[^a-z0-9 ]", " ", s)`: every character outside the class is
replaced by one space. -/
def limpiar (s : Str) : Str :=
  s.map (fun c => if esClase c then c else ' ')

/-- Worker for `re.sub(r"\s+", " ", s)`: the flag records whether the
previous character belonged to a whitespace run already collapsed. -/
def colapsarAux : Bool → Str → Str
  | _, [] => []
  | prev, c :: cs =>
    if esEspacioRE c then
      if prev then colapsarAux true cs else ' ' :: colapsarAux true cs
    else c :: colapsarAux false cs

/-- `re.sub(r"\s+", " ", s)`: each maximal run of whitespace becomes one space. -/
def colapsar (s : Str) : Str := colapsarAux false s

/-- Removal of trailing whitespace (right half of Python `str.strip`). -/
def stripDer : Str → Str
  | [] => []
  | c :: cs =>
    match stripDer cs with
    | [] => if esEspacioRE c then [] else [c]
    | d :: ds => c :: d :: ds

/-- Python `str.strip()`: drop leading and trailing whitespace. -/
def stripPy (s : Str) : Str := stripDer (s.dropWhile esEspacioRE)

/-- Python `str.lower` / `str.upper`, modelled character-wise. -/
def minusculas (s : Str) : Str := s.map Char.toLower

def mayus (s : Str) : Str := s.map Char.toUpper

/-- The Unicode data consumed by `normalizar`: `str.lower`, the NFD
decomposition (modelled character-wise) and the combining-mark test
`unicodedata.category(c) == "Mn"`.  The idempotence theorem only relies
on how these behave on the output alphabet `[a-z0-9 ]`, which is pinned
down by `Unicode.FielASCII` below. -/
structure Unicode where
  lower : Char → Char
  nfd : Char → List Char
  esMn : Char → Bool

/-- The facts of the real Unicode tables that the proofs use: on the
ASCII characters `[a-z0-9 ]`, lower-casing is the identity, NFD does not
decompose, and none of them is a combining mark. -/
def Unicode.FielASCII (u : Unicode) : Prop :=
  ∀ c : Char, esClase c = true → u.lower c = c ∧ u.nfd c = [c] ∧ u.esMn c = false

/-- `normalizar` of `procesar_actas.py`: `None` is propagated; otherwise
lower-case, strip diacritics (NFD, drop `Mn`), replace characters outside
`[a-z0-9 ]` by spaces, collapse whitespace runs, strip. -/
def normalizar (u : Unicode) : Option Str → Option Str
  | none => none
  | some t =>
    some (stripPy (colapsar (limpiar (((t.map u.lower).flatMap u.nfd).filter (fun c => !u.esMn c)))))

/-- Replace every (leftmost, non-overlapping) occurrence of the two-character
pattern `a b` by `r` — Python `str.replace` for a two-character needle. -/
def reemplazar2 (a b : Char) (r : Str) : Str → Str
  | [] => []
  | [c] => [c]
  | c :: d :: rest =>
    if c == a && d == b then r ++ reemplazar2 a b r rest
    else c :: reemplazar2 a b r (d :: rest)

/-- Python `str.replace` for a three-character needle `a b c`. -/
def reemplazar3 (a b c : Char) (r : Str) : Str → Str
  | [] => []
  | [d] => [d]
  | [d, e] => [d, e]
  | d :: e :: f :: rest =>
    if d == a && e == b && f == c then r ++ reemplazar3 a b c r rest
    else d :: reemplazar3 a b c r (e :: f :: rest)

/-- Core of `normalizar_unidad` on an actual string: strip, upper-case,
rewrite the cubic/square-metre glyph variants, delete all whitespace and
apply the fixed synonym table. -/
def normalizarUnidadStr (t : Str) : Str :=
  let s := mayus (stripPy t)
  let s := reemplazar2 'M' '³' ("M3".toList) s
  let s := reemplazar3 'M' '^' '3' ("M3".toList) s
  let s := reemplazar2 'M' '²' ("M2".toList) s
  let s := reemplazar3 'M' '^' '2' ("M2".toList) s
  let s := s.filter (fun c => !esEspacioRE c)
  if s == "UND".toList || s == "UNID".toList || s == "UNIDAD".toList || s == "U".toList then
    "UN".toList
  else if s == "ML".toList || s == "M.L".toList then "M".toList
  else s

/-- `normalizar_unidad` of `procesar_actas.py`: `None` becomes the empty
string, anything else goes through `normalizarUnidadStr`. -/
def normalizarUnidad : Option Str → Str
  | none => []
  | some t => normalizarUnidadStr t

/-- Python's substring test `pat in s` (contiguous containment). -/
def esSubcadena (pat : Str) : Str → Bool
  | [] => pat.isEmpty
  | c :: cs => pat.isPrefixOf (c :: cs) || esSubcadena pat cs

/-! ## Reference resolver, critical (keyword) mode -/

/-- Loop body of `_buscar_critico`: iterate the keyword map in insertion
order, remembering the best hit and its length (as in the source,
`best_len` starts at `-1` and is only beaten strictly). -/
def buscarCriticoAux (d : Str) : List (Str × ℚ) → Option (Str × ℚ) × Int → Option (Str × ℚ) × Int
  | [], acc => acc
  | kv :: rest, acc =>
    buscarCriticoAux d rest
      (if esSubcadena kv.1 d && decide ((kv.1.length : Int) > acc.2) then (some kv, (kv.1.length : Int))
       else acc)

/-- `_buscar_critico`: scan the keyword → price map (`k_norm in desc_norm`),
choosing the longest contained keyword; `(None, None)` when nothing is
contained, modelled as a single `Option` of the pair. -/
def buscarCritico (m : List (Str × ℚ)) (d : Str) : Option (Str × ℚ) :=
  (buscarCriticoAux d m (none, -1)).1

/-- `ACTIVIDADES_CRITICAS` of `config.py` (keyword → reference price). -/
def ACTIVIDADES_CRITICAS : List (Str × ℚ) :=
  [("EXCAVACION MECANICA".toList, 1000),
   ("BASE GRANULAR".toList, 1000),
   ("SUBBASE GRANULAR".toList, 1000),
   ("ESTABILIZACION DE SUBRASANTE".toList, 4500),
   ("ESTABILIZACION CON RAJON".toList, 4500),
   ("ESTABILIZACION CON RCD".toList, 4500)]

/-- Python `dict` assignment on an insertion-ordered association list:
overwriting keeps the original position, a fresh key is appended. -/
def dictInsertar (m : List (Str × ℚ)) (k : Str) (v : ℚ) : List (Str × ℚ) :=
  if m.any (fun kv => kv.1 = k) then m.map (fun kv => if kv.1 = k then (k, v) else kv)
  else m ++ [(k, v)]

/-- The module-level construction of `CRIT_MAP`: normalize each keyword of
`ACTIVIDADES_CRITICAS`, skip the ones that normalize to nothing, store the
price (already numeric, so `float(v)` never fails here). -/
def critMapDe (u : Unicode) : List (Str × ℚ) :=
  ACTIVIDADES_CRITICAS.foldl
    (fun m kv =>
      match normalizar u (some kv.1) with
      | none => m
      | some kn => if kn.isEmpty then m else dictInsertar m kn kv.2)
    []

/-! ## Activity classifier -/

/-- Python `\w` (ASCII part): letters, digits, underscore. -/
def esCaracterPalabra (c : Char) : Bool := c.isAlphanum || c == '_'

/-- Worker for `re.search(r"\bmr\b", s)`: try every start position; a hit
needs a non-word character (or the string edge) on both sides of `mr`.
The first argument is the character preceding the current position. -/
def buscarMRDesde : Option Char → Str → Bool
  | prev, 'm' :: 'r' :: rest =>
    ((match prev with | none => true | some p => !esCaracterPalabra p) &&
     (match rest with | [] => true | c :: _ => !esCaracterPalabra c))
    || buscarMRDesde (some 'm') ('r' :: rest)
  | _, [] => false
  | _, c :: cs => buscarMRDesde (some c) cs

/-- `re.search(r"\bmr\b", s)` as a Boolean. -/
def buscarMR (s : Str) : Bool := buscarMRDesde none s

/-- The quantity families of `_clasificar_familia`. -/
inductive Familia
  | excavaciones
  | rellenos
  | concretoMR
  | concretoEstampado
deriving DecidableEq, Repr

/-- The padding `d = f" {desc_norm} "` used by `_clasificar_familia`. -/
def pad (d : Str) : Str := ' ' :: d ++ [' ']

/-- `_clasificar_familia`: first match wins, in the order
estamp / mr (word boundary) / excav / rellen, each of the three plain
keywords being looked up with a leading space in the padded string. -/
def clasificarFamilia (descNorm : Str) : Option Familia :=
  let d := pad descNorm
  if esSubcadena (" estamp".toList) d then some Familia.concretoEstampado
  else if buscarMR d then some Familia.concretoMR
  else if esSubcadena (" excav".toList) d then some Familia.excavaciones
  else if esSubcadena (" rellen".toList) d then some Familia.rellenos
  else none

/-- Modelled from the spec sentence of C6 (for comparison with
`clasificarFamilia`): the same priority order, but with the three keyword
tests as plain substring containment in the description itself. -/
def clasificarFamiliaSpec (descNorm : Str) : Option Familia :=
  if esSubcadena ("estamp".toList) descNorm then some Familia.concretoEstampado
  else if buscarMR descNorm then some Familia.concretoMR
  else if esSubcadena ("excav".toList) descNorm then some Familia.excavaciones
  else if esSubcadena ("rellen".toList) descNorm then some Familia.rellenos
  else none

/-! ## Reconciliation engine (`revisar_acta`) -/

/-- The per-certificate quantity accumulators `totales_cant`. -/
structure Totales where
  excavaciones : ℚ
  rellenos : ℚ
  concretoMR : ℚ
  concretoEstampado : ℚ
deriving DecidableEq, Repr

def Totales.cero : Totales := ⟨0, 0, 0, 0⟩

/-- Lines 319–327 of `procesar_actas.py`: four independent keyword tests on
the normalized description, each adding the quantity to its accumulator. -/
def acumularCantidades (descNorm : Str) (cantidad : ℚ) (t : Totales) : Totales :=
  let t1 := if esSubcadena ("excav".toList) descNorm then
    { t with excavaciones := t.excavaciones + cantidad } else t
  let t2 := if esSubcadena ("rellen".toList) descNorm then
    { t1 with rellenos := t1.rellenos + cantidad } else t1
  let t3 := if buscarMR descNorm then
    { t2 with concretoMR := t2.concretoMR + cantidad } else t2
  if esSubcadena ("estamp".toList) descNorm then
    { t3 with concretoEstampado := t3.concretoEstampado + cantidad } else t3

/-- One reconciliation record, i.e. one dict appended to `base_registro`
(`modo` is `true` for `"CRITICO"`, `false` for `"NORMAL"`). -/
structure Registro where
  anio : Int
  mes : Str
  archivo : Str
  contratista : Str
  item : Str
  descripcion : Str
  valorUnitarioOriginal : ℚ
  un : Str
  valorPactado : ℚ
  cantidadPresenta : ℚ
  valorAjustado : ℚ
  modo : Bool
deriving DecidableEq, Repr

/-- Lines 353–379 of `procesar_actas.py`: the reference comparison.  With
`diff = valor - valor_ref`, a record is appended exactly when
`abs(diff) > 1`, and its adjusted value is `valor_ref * cantidad`.
(The cell-colouring on the sign of `diff` is a rendering side effect with
no influence on the record.) -/
def comparacion (anio : Int) (mes archivo contratista item descripcion unidad : Str)
    (modoCritico : Bool) (valor valorRef cantidad : ℚ) : Option Registro :=
  let diff := valor - valorRef
  if 1 < |diff| then
    some { anio := anio, mes := mes, archivo := archivo, contratista := contratista,
           item := item, descripcion := descripcion,
           valorUnitarioOriginal := valor, un := unidad, valorPactado := valorRef,
           cantidadPresenta := cantidad, valorAjustado := valorRef * cantidad,
           modo := modoCritico }
  else none

/-- `valores_referencia.get(key)` — the reference dict of normal mode,
keyed by (normalized description, normalized unit). -/
def dictGet (m : List ((Str × Str) × ℚ)) (k : Str × Str) : Option ℚ :=
  (m.find? (fun kv => kv.1 = k)).map (fun kv => kv.2)

/-- Lines 335–350 of `procesar_actas.py`: resolve the reference price.
Critical mode queries the keyword map; normal mode skips the item when the
normalized unit is empty and otherwise performs the exact dict lookup.
`none` in either mode silently drops the item (the caller `continue`s). -/
def resolverReferencia (modoCritico : Bool) (refs : List ((Str × Str) × ℚ))
    (critMap : List (Str × ℚ)) (descNorm unidad : Str) : Option ℚ :=
  if modoCritico then (buscarCritico critMap descNorm).map (fun kv => kv.2)
  else if unidad.isEmpty then none
  else dictGet refs (descNorm, unidad)

/-- One data row of the CORTE sheet as `revisar_acta` reads it: the item
code already stringified and stripped, the raw description and unit cells,
and the price/quantity cells after numeric coercion (`none` models both an
empty cell and a coercion failure, which the code treats alike: the price
row is skipped, the quantity falls back to `0.0`). -/
structure Fila where
  item : Str
  descRaw : Option Str
  unRaw : Option Str
  valor : Option ℚ
  cantidad : Option ℚ
deriving DecidableEq, Repr

/-- Python truthiness of an optional string: `None` and `""` are falsy. -/
def esTruthy : Option Str → Bool
  | none => false
  | some s => !s.isEmpty

/-- The fixed context of one `revisar_acta` call. -/
structure Parametros where
  u : Unicode
  refs : List ((Str × Str) × ℚ)
  critMap : List (Str × ℚ)
  anio : Int
  mes : Str
  archivo : Str
  contratista : Str
  modoCritico : Bool

/-- Lines 266–379 of `procesar_actas.py`: the body of the row loop, as a
fold step over (quantity accumulators, records appended so far).  In
order: skip on empty item/description, the labor filters on the
upper-cased text, normalization (skip when empty), unparsable price (skip),
zero quantity (skip — an unparsable quantity became `0.0` just before),
quantity accumulation, reference resolution, comparison. -/
def pasoFila (p : Parametros) (st : Totales × List Registro) (f : Fila) :
    Totales × List Registro :=
  if f.item.isEmpty || !esTruthy f.descRaw then st
  else
    let descripcion := stripPy (f.descRaw.getD [])
    let unidad := normalizarUnidad f.unRaw
    let descUpper := mayus descripcion
    if esSubcadena ("MANO DE OBRA".toList) descUpper
        || esSubcadena ("MR45".toList) (mayus f.item)
        || esSubcadena ("PEA".toList) descUpper then st
    else
      match normalizar p.u (some descripcion) with
      | none => st
      | some descNorm =>
        if descNorm.isEmpty then st
        else
          match f.valor with
          | none => st
          | some valor =>
            let cantidad := (f.cantidad.getD 0)
            if cantidad = 0 then st
            else
              let tot := acumularCantidades descNorm cantidad st.1
              match resolverReferencia p.modoCritico p.refs p.critMap descNorm unidad with
              | none => (tot, st.2)
              | some valorRef =>
                match comparacion p.anio p.mes p.archivo p.contratista f.item descripcion
                    unidad p.modoCritico valor valorRef cantidad with
                | none => (tot, st.2)
                | some reg => (tot, st.2 ++ [reg])

/-- One certificate workbook, at the granularity `revisar_acta` consumes it:
its sheet names, the contractor cell, and the data rows of the CORTE sheet. -/
structure Acta where
  archivo : Str
  sheetnames : List Str
  contratista : Str
  filas : List Fila

/-- Lines 230–238 of `procesar_actas.py`: the sheet search tries, in order,
the four literal names `"CORTE"`, `"Corte"`, `"Corte "`, `"corte"`. -/
def buscarHojaCorte (sheetnames : List Str) : Option Str :=
  (["CORTE", "Corte", "Corte ", "corte"].map String.toList).find?
    (fun n => sheetnames.contains n)

/-- `revisar_acta`: when no CORTE sheet is found the function returns
before touching `base_registro` or `base_cantidades` (the printed
diagnostic is a side effect outside the model); otherwise every data row
is processed and one `(contratista, totales)` row is appended to
`base_cantidades`.  The header/column resolution of the source (also an
early return when `VALOR UNITARIO` is missing, with the same empty
outcome) is modelled separately at cell level by `obtenerColumnas` and
`resolverColValor`; here the rows arrive already extracted. -/
def revisarActa (u : Unicode) (refs : List ((Str × Str) × ℚ)) (critMap : List (Str × ℚ))
    (anio : Int) (mes : Str) (modoCritico : Bool) (a : Acta) :
    List Registro × List (Str × Totales) :=
  match buscarHojaCorte a.sheetnames with
  | none => ([], [])
  | some _ =>
    let p : Parametros :=
      ⟨u, refs, critMap, anio, mes, a.archivo, a.contratista, modoCritico⟩
    let r := a.filas.foldl (pasoFila p) (Totales.cero, [])
    (r.2, [(a.contratista, r.1)])

/-- Lines 29–41 of `pipeline_mes.py`: every certificate of the month is
processed in sequence into the shared `base_registro` / `base_cantidades`
lists (sequential appends = concatenation in file order). -/
def correrLote (u : Unicode) (refs : List ((Str × Str) × ℚ)) (critMap : List (Str × ℚ))
    (anio : Int) (mes : Str) (modoCritico : Bool) (actas : List Acta) :
    List Registro × List (Str × Totales) :=
  (actas.flatMap (fun a => (revisarActa u refs critMap anio mes modoCritico a).1),
   actas.flatMap (fun a => (revisarActa u refs critMap anio mes modoCritico a).2))

/-! ## Cross-period ledgers (`correr_todo`, lines 45–138 of `pipeline_mes.py`) -/

/-- The record does not belong to the period being processed. -/
def deOtroPeriodo (anio : Int) (mes : Str) (r : Registro) : Bool :=
  !(decide (r.anio = anio) && decide (r.mes = mes))

/-- One run of the persistence tail of `correr_todo` over the two
cross-period stores, at record granularity: `bg` is the current content of
`base_general.xlsx` (empty when the file does not exist) and `reg` the
REGISTRO sheet of `resumen_global.xlsx`.  `base_general` drops the rows of
the processed (year, month) before appending the new ones; the global
REGISTRO sheet is rewritten as old content plus the new records, and is
left untouched when the combined base is empty (the code only writes
`resumen_global.xlsx` under `if not df_combinado.empty`). -/
def correrPeriodo (anio : Int) (mes : Str) (nuevos : List Registro)
    (bg reg : List Registro) : List Registro × List Registro :=
  let bgNuevo := bg.filter (deOtroPeriodo anio mes) ++ nuevos
  let regNuevo := if bgNuevo.isEmpty then reg else reg ++ nuevos
  (bgNuevo, regNuevo)

/-! ## Header map (`obtener_columnas` of `excel_utils.py`) -/

/-- A worksheet at cell granularity: `celda i fila` is the value of the
cell in (1-based) column `i` and row `fila`. -/
structure Hoja where
  maxColumn : Nat
  celda : Nat → Nat → Option Str

/-- openpyxl coordinate parsing for the single-letter references the code
builds with `chr(65 + i)`: column letters are case-insensitive, anything
else raises (the `except` branch turns that into `None`). -/
def parseCol (c : Char) : Option Nat :=
  if 65 ≤ c.toNat ∧ c.toNat ≤ 90 then some (c.toNat - 64)
  else if 97 ≤ c.toNat ∧ c.toNat ≤ 122 then some (c.toNat - 96)
  else none

/-- `ws[f"{chr(65+i)}{fila}"].value` inside `try/except`. -/
def leerCelda (h : Hoja) (i fila : Nat) : Option Str :=
  match parseCol (Char.ofNat (65 + i)) with
  | none => none
  | some idx => h.celda idx fila

/-- The header-name computation of `obtener_columnas`: join the two header
cells with a space when both are truthy, else take whichever is truthy
(then strip and upper-case); `None` when neither is. -/
def nombreDe (e1 e2 : Option Str) : Option Str :=
  if esTruthy e1 && esTruthy e2 then
    some (mayus (stripPy (e1.getD [] ++ [' '] ++ e2.getD [])))
  else if esTruthy e1 then some (mayus (stripPy (e1.getD [])))
  else if esTruthy e2 then some (mayus (stripPy (e2.getD [])))
  else none

/-- Python `dict` assignment for the header map (same semantics as
`dictInsertar`, at value type `Char`). -/
def dictInsertarCol (m : List (Str × Char)) (k : Str) (v : Char) : List (Str × Char) :=
  if m.any (fun kv => kv.1 = k) then m.map (fun kv => if kv.1 = k then (k, v) else kv)
  else m ++ [(k, v)]

/-- `obtener_columnas`: read header rows 8 and 9 for `i` in
`range(0, max_column)`, and map each truthy header name to `chr(65 + i)`. -/
def obtenerColumnas (h : Hoja) : List (Str × Char) :=
  (List.range h.maxColumn).foldl
    (fun cols i =>
      match nombreDe (leerCelda h i 8) (leerCelda h i 9) with
      | none => cols
      | some nom => if nom.isEmpty then cols else dictInsertarCol cols nom (Char.ofNat (65 + i)))
    []

def dictGetCol (m : List (Str × Char)) (k : Str) : Option Char :=
  (m.find? (fun kv => kv.1 = k)).map (fun kv => kv.2)

/-- Lines 253–261 of `procesar_actas.py`: resolve the price column — the
exact key `"VALOR UNITARIO"` first, then the first header containing it;
`none` makes `revisar_acta` reject the certificate. -/
def resolverColValor (cols : List (Str × Char)) : Option Char :=
  match dictGetCol cols ("VALOR UNITARIO".toList) with
  | some l => some l
  | none =>
    (cols.find? (fun kv => esSubcadena ("VALOR UNITARIO".toList) kv.1)).map (fun kv => kv.2)

/-! ## Concrete instances used by witnesses and counterexamples -/

/-- A concrete `Unicode` instance with the behaviour of the real tables on
the inputs it is applied to below (plain ASCII lower-case text): identity
lower-casing, trivial decomposition, no combining marks. -/
def unicodeId : Unicode := ⟨fun c => c, fun c => [c], fun _ => false⟩

/-- Concrete engine context (normal mode, empty reference stores). -/
def parametrosEjemplo : Parametros :=
  ⟨unicodeId, [], [], 2025, "enero".toList, "acta1.xlsx".toList, "contratista a".toList, false⟩

/-- A concrete line item whose description matches both the excavation and
the backfill keyword. -/
def filaEjemplo : Fila :=
  ⟨"1.1".toList, some ("excavacion y relleno".toList), some ("m3".toList), some 100, some 5⟩

/-- A concrete flagged record of the period (2025, enero). -/
def registroEjemplo : Registro :=
  ⟨2025, "enero".toList, "acta1.xlsx".toList, "contratista a".toList, "1.1".toList,
   "excavacion".toList, 1500, "M3".toList, 1000, 10, 10000, false⟩

/-- A sheet whose only `VALOR UNITARIO` header sits in column AA (index 27,
past Z), with a plain `ITEM` header in column A. -/
def hojaMasAllaZ : Hoja :=
  ⟨27, fun idx fila =>
    if idx = 27 ∧ fila = 8 then some ("VALOR UNITARIO".toList)
    else if idx = 1 ∧ fila = 8 then some ("ITEM".toList)
    else none⟩

/-- The same sheet with a different cell content past column Z. -/
def hojaMasAllaZVariante : Hoja :=
  ⟨27, fun idx fila =>
    if idx = 27 ∧ fila = 8 then some ("OTRA COSA".toList)
    else if idx = 1 ∧ fila = 8 then some ("ITEM".toList)
    else none⟩

/-- Loop invariant of `_buscar_critico`: after scanning `seen`, the
accumulator holds nothing (and `-1`) when no scanned keyword is contained
in the description, and otherwise an entry of `seen` that is contained and
of maximal length among the contained scanned entries. -/
def InvCritico (d : Str) (seen : List (Str × ℚ)) (acc : Option (Str × ℚ) × Int) : Prop :=
  (acc.1 = none → acc.2 = -1 ∧ ∀ kv ∈ seen, esSubcadena kv.1 d = false)
  ∧ (∀ kv, acc.1 = some kv →
      acc.2 = (kv.1.length : Int) ∧ kv ∈ seen ∧ esSubcadena kv.1 d = true ∧
      ∀ kv2 ∈ seen, esSubcadena kv2.1 d = true → kv2.1.length ≤ kv.1.length)

/-- No two consecutive whitespace characters (the shape `colapsar`
guarantees and the shape on which it is the identity). -/
def sinDobles : Str → Bool
  | [] => true
  | [_] => true
  | c :: d :: rest => !(esEspacioRE c && esEspacioRE d) && sinDobles (d :: rest)

/-! ## Theorems -/

/-- C1: a line item that reaches the reference comparison produces a
record exactly when the absolute difference between the declared price and
the reference price is strictly greater than 1; at the boundary
`|diff| = 1` no record is emitted. -/
theorem registro_si_y_solo_si_diferencia_mayor_uno
    (anio : Int) (mes archivo contratista item descripcion unidad : Str)
    (modoCritico : Bool) (valor valorRef cantidad : ℚ) :
    ((comparacion anio mes archivo contratista item descripcion unidad modoCritico
        valor valorRef cantidad).isSome ↔ 1 < |valor - valorRef|)
    ∧ (|valor - valorRef| = 1 →
        comparacion anio mes archivo contratista item descripcion unidad modoCritico
          valor valorRef cantidad = none) := by
  constructor
  · by_cases h : 1 < |valor - valorRef|
    · simp [comparacion, h]
    · simp [comparacion, h]
  · intro h
    simp [comparacion, h]

/-- Witness for C1 at the boundary: declared 2, reference 1 (difference
exactly 1) is not flagged. -/
theorem registro_si_y_solo_si_diferencia_mayor_uno_witness :
    |(2 : ℚ) - 1| = 1
    ∧ comparacion 2025 ("enero".toList) [] [] [] [] [] false 2 1 5 = none :=
  ⟨by norm_num,
   (registro_si_y_solo_si_diferencia_mayor_uno 2025 ("enero".toList) [] [] [] [] []
      false 2 1 5).2 (by norm_num)⟩

/-- C2: every emitted record stores `valor_ref * cantidad` as its adjusted
value — a quantity independent of the declared unit price. -/
theorem valorAjustado_desde_referencia
    (anio : Int) (mes archivo contratista item descripcion unidad : Str)
    (modoCritico : Bool) (valor valorRef cantidad : ℚ) (reg : Registro) :
    comparacion anio mes archivo contratista item descripcion unidad modoCritico
      valor valorRef cantidad = some reg →
    reg.valorAjustado = valorRef * cantidad := by
  intro h
  by_cases hc : 1 < |valor - valorRef|
  · simp only [comparacion, if_pos hc] at h
    cases h
    rfl
  · simp [comparacion, hc] at h

/-- Witness for C2: declared 1500, reference 1000, quantity 10 is flagged
and its adjusted value is 10000 = 1000 × 10, not 15000. -/
theorem valorAjustado_desde_referencia_witness :
    ∃ reg : Registro,
      comparacion 2025 ("enero".toList) [] [] [] [] [] false 1500 1000 10 = some reg
      ∧ reg.valorAjustado = 1000 * 10 := by
  have h : comparacion 2025 ("enero".toList) [] [] [] [] [] false 1500 1000 10
      = some ⟨2025, "enero".toList, [], [], [], [], 1500, [], 1000, 10, 1000 * 10, false⟩ := by
    simp only [comparacion]
    norm_num
  exact ⟨_, h, valorAjustado_desde_referencia 2025 ("enero".toList) [] [] [] [] [] false
    1500 1000 10 _ h⟩

/-- C5 (corrected): the four quantity accumulators are updated
independently — each accumulator receives the quantity exactly when its
own keyword test matches the normalized description, so a description
matching several patterns is counted in several accumulators. -/
theorem acumularCantidades_por_patron (d : Str) (c : ℚ) (t : Totales) :
    (acumularCantidades d c t).excavaciones
      = t.excavaciones + (if esSubcadena ("excav".toList) d then c else 0)
    ∧ (acumularCantidades d c t).rellenos
      = t.rellenos + (if esSubcadena ("rellen".toList) d then c else 0)
    ∧ (acumularCantidades d c t).concretoMR
      = t.concretoMR + (if buscarMR d then c else 0)
    ∧ (acumularCantidades d c t).concretoEstampado
      = t.concretoEstampado + (if esSubcadena ("estamp".toList) d then c else 0) := by
  simp only [acumularCantidades]
  split_ifs <;> simp

/-- Witness for C5 (corrected) at a concrete input: a purely excavation
description feeds only the excavation accumulator. -/
theorem acumularCantidades_por_patron_witness :
    (acumularCantidades ("excavacion arena".toList) 7 Totales.cero).excavaciones = 0 + 7 := by
  rw [(acumularCantidades_por_patron ("excavacion arena".toList) 7 Totales.cero).1,
    if_pos (by decide)]
  rfl

/-- Counterexample to C5 as stated: the single line item `filaEjemplo`
(description "excavacion y relleno", quantity 5 ≠ 0) has its quantity
added to two accumulators of the same certificate — `Excavaciones` and
`Rellenos` both move from 0 to 5 in one engine step. -/
theorem acumularCantidades_doble_conteo :
    (pasoFila parametrosEjemplo (Totales.cero, []) filaEjemplo).1.excavaciones = 5
    ∧ (pasoFila parametrosEjemplo (Totales.cero, []) filaEjemplo).1.rellenos = 5
    ∧ Totales.cero.excavaciones = 0 ∧ Totales.cero.rellenos = 0
    ∧ filaEjemplo.cantidad = some 5 := by
  have h : pasoFila parametrosEjemplo (Totales.cero, []) filaEjemplo
      = (⟨0 + 5, 0 + 5, 0, 0⟩, []) := rfl
  rw [h]
  norm_num [Totales.cero, filaEjemplo]

/-- C6 (corrected): the classifier tests its three plain keywords with a
leading space inside the space-padded description (so a keyword counts
only at the start of a word), with MR as a word-boundary match, in the
fixed order estamp / mr / excav / rellen, first match winning. -/
theorem clasificarFamilia_caracterizacion (d : Str) :
    (clasificarFamilia d = some Familia.concretoEstampado
      ↔ esSubcadena (" estamp".toList) (pad d) = true)
    ∧ (clasificarFamilia d = some Familia.concretoMR
      ↔ (esSubcadena (" estamp".toList) (pad d) = false ∧ buscarMR (pad d) = true))
    ∧ (clasificarFamilia d = some Familia.excavaciones
      ↔ (esSubcadena (" estamp".toList) (pad d) = false ∧ buscarMR (pad d) = false
          ∧ esSubcadena (" excav".toList) (pad d) = true))
    ∧ (clasificarFamilia d = some Familia.rellenos
      ↔ (esSubcadena (" estamp".toList) (pad d) = false ∧ buscarMR (pad d) = false
          ∧ esSubcadena (" excav".toList) (pad d) = false
          ∧ esSubcadena (" rellen".toList) (pad d) = true))
    ∧ (clasificarFamilia d = none
      ↔ (esSubcadena (" estamp".toList) (pad d) = false ∧ buscarMR (pad d) = false
          ∧ esSubcadena (" excav".toList) (pad d) = false
          ∧ esSubcadena (" rellen".toList) (pad d) = false)) := by
  simp only [clasificarFamilia]
  split_ifs <;> simp_all

/-- Witness for C6 (corrected) at a concrete input: "piso estampado" has
a word starting with estamp and classifies as stamped concrete. -/
theorem clasificarFamilia_caracterizacion_witness :
    clasificarFamilia ("piso estampado".toList) = some Familia.concretoEstampado :=
  ((clasificarFamilia_caracterizacion ("piso estampado".toList)).1).mpr (by decide)

/-- Counterexample to C6 as stated: "xestampado" contains the substring
"estamp" (and none of the other keywords), yet the classifier yields
`none` where the claimed plain-substring rule yields CONCRETE_STAMPED. -/
theorem clasificarFamilia_subcadena_contraejemplo :
    esSubcadena ("estamp".toList) ("xestampado".toList) = true
    ∧ clasificarFamilia ("xestampado".toList) = none
    ∧ clasificarFamiliaSpec ("xestampado".toList) = some Familia.concretoEstampado := by
  decide

/-- C8 (corrected): the sheet search accepts exactly the four literal
names `"CORTE"`, `"Corte"`, `"Corte "`, `"corte"`; a certificate without
any of them contributes nothing to the batch while the remaining
certificates are processed unchanged. -/
theorem buscarHojaCorte_literales :
    (∀ names : List Str,
      (buscarHojaCorte names).isSome
        ↔ ("CORTE".toList ∈ names ∨ "Corte".toList ∈ names
            ∨ "Corte ".toList ∈ names ∨ "corte".toList ∈ names))
    ∧ (∀ (u : Unicode) (refs : List ((Str × Str) × ℚ)) (critMap : List (Str × ℚ))
        (anio : Int) (mes : Str) (modo : Bool) (a : Acta) (pre post : List Acta),
        buscarHojaCorte a.sheetnames = none →
        correrLote u refs critMap anio mes modo (pre ++ a :: post)
          = correrLote u refs critMap anio mes modo (pre ++ post)) := by
  constructor
  · intro names
    simp [buscarHojaCorte, List.find?_isSome]
  · intro u refs critMap anio mes modo a pre post h
    simp [correrLote, revisarActa, h]

/-- Witness for C8: a batch consisting of one certificate without any
CORTE sheet produces the same (empty) output as the empty batch. -/
theorem buscarHojaCorte_literales_witness :
    correrLote unicodeId [] [] 2025 ("enero".toList) false
        ([] ++ (⟨"x.xlsx".toList, ["Hoja1".toList], [], []⟩ : Acta) :: [])
      = correrLote unicodeId [] [] 2025 ("enero".toList) false ([] ++ []) :=
  buscarHojaCorte_literales.2 unicodeId [] [] 2025 ("enero".toList) false
    ⟨"x.xlsx".toList, ["Hoja1".toList], [], []⟩ [] [] (by decide)

/-- Counterexample to C8 as stated: `"CORTE "` is a casing of CORTE with
one trailing space (its lower-casing is "corte "), yet a workbook whose
only sheet carries that name is not found. -/
theorem buscarHojaCorte_contraejemplo :
    minusculas ("CORTE ".toList) = "corte ".toList
    ∧ buscarHojaCorte ["CORTE ".toList] = none := by
  decide

/-- C7: in normal (exact) mode an empty normalized unit skips the line
item outright, and a key absent from the reference mapping resolves to
`none`; in both situations the engine step leaves the flagged-record
stream untouched (no record, no error — the model is a total function). -/
theorem modo_normal_sin_referencia_silencioso :
    (∀ (refs : List ((Str × Str) × ℚ)) (critMap : List (Str × ℚ)) (d : Str),
      resolverReferencia false refs critMap d [] = none)
    ∧ (∀ (refs : List ((Str × Str) × ℚ)) (critMap : List (Str × ℚ)) (d u : Str),
        dictGet refs (d, u) = none → resolverReferencia false refs critMap d u = none)
    ∧ (∀ (p : Parametros) (st : Totales × List Registro) (f : Fila),
        p.modoCritico = false → normalizarUnidad f.unRaw = [] →
        (pasoFila p st f).2 = st.2)
    ∧ (∀ (p : Parametros) (st : Totales × List Registro) (f : Fila) (descNorm : Str),
        p.modoCritico = false →
        normalizar p.u (some (stripPy (f.descRaw.getD []))) = some descNorm →
        dictGet p.refs (descNorm, normalizarUnidad f.unRaw) = none →
        (pasoFila p st f).2 = st.2) := by
  refine ⟨?_, ?_, ?_, ?_⟩
  · intro refs critMap d
    simp [resolverReferencia]
  · intro refs critMap d u h
    by_cases hu : u.isEmpty
    · simp [resolverReferencia, hu]
    · simp [resolverReferencia, hu, h]
  · intro p st f hmodo hu
    simp only [pasoFila]
    split
    · rfl
    · split
      · rfl
      · split
        · rfl
        · split
          · rfl
          · split
            · rfl
            · split
              · rfl
              · rw [hu, hmodo]
                simp [resolverReferencia]
  · intro p st f descNorm hmodo hn hget
    simp only [pasoFila]
    split
    · rfl
    · split
      · rfl
      · split
        · rfl
        · rename_i dn hdn
          rw [hn] at hdn
          cases hdn
          split
          · rfl
          · split
            · rfl
            · split
              · rfl
              · rw [hmodo]
                by_cases hu : (normalizarUnidad f.unRaw).isEmpty
                · simp [resolverReferencia, hu]
                · simp [resolverReferencia, hu, hget]

/-- Witness for C7: with an empty reference store and a unit-less row, the
engine step emits nothing. -/
theorem modo_normal_sin_referencia_silencioso_witness :
    (pasoFila parametrosEjemplo (Totales.cero, [])
        ⟨"1.1".toList, some ("excavacion manual".toList), none, some 100, some 5⟩).2 = []
    ∧ resolverReferencia false [] [] ("excavacion manual".toList) [] = none :=
  ⟨modo_normal_sin_referencia_silencioso.2.2.1 parametrosEjemplo (Totales.cero, [])
      ⟨"1.1".toList, some ("excavacion manual".toList), none, some 100, some 5⟩ rfl rfl,
   modo_normal_sin_referencia_silencioso.1 [] [] ("excavacion manual".toList)⟩

/-- C3 (corrected): re-running a period is idempotent on
`base_general.xlsx` (records of the same (year, month) are replaced), but
the REGISTRO sheet of `resumen_global.xlsx` receives the period's records
appended again on every re-run. -/
theorem correrPeriodo_reejecucion (anio : Int) (mes : Str)
    (nuevos bg reg : List Registro)
    (h : ∀ r ∈ nuevos, r.anio = anio ∧ r.mes = mes) :
    (correrPeriodo anio mes nuevos (correrPeriodo anio mes nuevos bg reg).1
        (correrPeriodo anio mes nuevos bg reg).2).1
      = (correrPeriodo anio mes nuevos bg reg).1
    ∧ (correrPeriodo anio mes nuevos (correrPeriodo anio mes nuevos bg reg).1
        (correrPeriodo anio mes nuevos bg reg).2).2
      = (correrPeriodo anio mes nuevos bg reg).2 ++ nuevos := by
  have hnuevos : nuevos.filter (deOtroPeriodo anio mes) = [] := by
    rw [List.filter_eq_nil_iff]
    intro r hr
    simp [deOtroPeriodo, (h r hr).1, (h r hr).2]
  have hbase :
      ((bg.filter (deOtroPeriodo anio mes) ++ nuevos).filter (deOtroPeriodo anio mes))
        ++ nuevos
      = bg.filter (deOtroPeriodo anio mes) ++ nuevos := by
    rw [List.filter_append, List.filter_filter, hnuevos, List.append_nil]
    congr 1
    apply List.filter_congr
    intro r _
    simp [Bool.and_self]
  constructor
  · simpa [correrPeriodo] using hbase
  · simp only [correrPeriodo, hbase]
    by_cases hvacio : (bg.filter (deOtroPeriodo anio mes) ++ nuevos).isEmpty
    · have hn : nuevos = [] := by
        rcases List.append_eq_nil.mp (List.isEmpty_iff.mp hvacio) with ⟨-, h2⟩
        exact h2
      simp [hvacio, hn]
    · simp [hvacio]

/-- Witness for C3 (corrected): a first run inserts `registroEjemplo` into
both ledgers; the re-run leaves `base_general` unchanged and appends the
record again to the global REGISTRO sheet. -/
theorem correrPeriodo_reejecucion_witness :
    (correrPeriodo 2025 ("enero".toList) [registroEjemplo]
        (correrPeriodo 2025 ("enero".toList) [registroEjemplo] [] []).1
        (correrPeriodo 2025 ("enero".toList) [registroEjemplo] [] []).2).1
      = (correrPeriodo 2025 ("enero".toList) [registroEjemplo] [] []).1
    ∧ (correrPeriodo 2025 ("enero".toList) [registroEjemplo]
        (correrPeriodo 2025 ("enero".toList) [registroEjemplo] [] []).1
        (correrPeriodo 2025 ("enero".toList) [registroEjemplo] [] []).2).2
      = (correrPeriodo 2025 ("enero".toList) [registroEjemplo] [] []).2
          ++ [registroEjemplo] :=
  correrPeriodo_reejecucion 2025 ("enero".toList) [registroEjemplo] [] []
    (by intro r hr; rcases List.mem_singleton.mp hr with rfl; exact ⟨rfl, rfl⟩)

/-- Counterexample to C3 as stated: after re-processing the same period on
identical input, the REGISTRO ledger of `resumen_global.xlsx` holds the
flagged record twice — the re-run duplicates instead of replacing. -/
theorem correrPeriodo_duplicado :
    (correrPeriodo 2025 ("enero".toList) [registroEjemplo]
        (correrPeriodo 2025 ("enero".toList) [registroEjemplo] [] []).1
        (correrPeriodo 2025 ("enero".toList) [registroEjemplo] [] []).2).2
      = [registroEjemplo, registroEjemplo]
    ∧ (correrPeriodo 2025 ("enero".toList) [registroEjemplo] [] []).2
      = [registroEjemplo] := by
  decide

theorem parseCol_le_26 {c : Char} {idx : Nat} (h : parseCol c = some idx) : idx ≤ 26 := by
  unfold parseCol at h
  split_ifs at h with h1 h2 <;> injection h with h <;> omega

theorem leerCelda_congr {h1 h2 : Hoja}
    (hc : ∀ idx fila, idx ≤ 26 → h1.celda idx fila = h2.celda idx fila)
    (i fila : Nat) : leerCelda h1 i fila = leerCelda h2 i fila := by
  unfold leerCelda
  cases hp : parseCol (Char.ofNat (65 + i)) with
  | none => rfl
  | some idx => exact hc idx fila (parseCol_le_26 hp)

/-- C10: the header map built by `obtener_columnas` never reads a cell
past column Z — two sheets of the same width that agree on columns A–Z of
the header rows produce the same map — and a sheet whose only
`VALOR UNITARIO` header sits at column AA fails the price-column
resolution, so `revisar_acta` rejects that certificate. -/
theorem obtenerColumnas_solo_A_a_Z :
    (∀ h1 h2 : Hoja, h1.maxColumn = h2.maxColumn →
      (∀ idx fila, idx ≤ 26 → h1.celda idx fila = h2.celda idx fila) →
      obtenerColumnas h1 = obtenerColumnas h2)
    ∧ resolverColValor (obtenerColumnas hojaMasAllaZ) = none := by
  constructor
  · intro h1 h2 hmax hc
    unfold obtenerColumnas
    rw [hmax]
    apply List.foldl_ext
    intro cols i _
    rw [leerCelda_congr hc i 8, leerCelda_congr hc i 9]
  · decide

/-- Witness for C10: changing only the content of the column-AA header
cell leaves the header map untouched. -/
theorem obtenerColumnas_solo_A_a_Z_witness :
    obtenerColumnas hojaMasAllaZ = obtenerColumnas hojaMasAllaZVariante :=
  obtenerColumnas_solo_A_a_Z.1 hojaMasAllaZ hojaMasAllaZVariante rfl
    (by
      intro idx fila hle
      have h27 : idx ≠ 27 := by omega
      simp [hojaMasAllaZ, hojaMasAllaZVariante, h27])

theorem buscarCriticoAux_invariante (d : Str) :
    ∀ (rest : List (Str × ℚ)) (acc : Option (Str × ℚ) × Int) (seen : List (Str × ℚ)),
      InvCritico d seen acc →
      InvCritico d (seen ++ rest) (buscarCriticoAux d rest acc) := by
  intro rest
  induction rest with
  | nil => intro acc seen h; simpa [buscarCriticoAux] using h
  | cons kv rest ih =>
    intro acc seen h
    have hpaso : InvCritico d (seen ++ [kv])
        (if esSubcadena kv.1 d && decide ((kv.1.length : Int) > acc.2)
         then (some kv, (kv.1.length : Int)) else acc) := by
      by_cases hcond : (esSubcadena kv.1 d && decide ((kv.1.length : Int) > acc.2)) = true
      · rw [if_pos hcond]
        have hand : esSubcadena kv.1 d = true ∧ acc.2 < (kv.1.length : Int) := by
          simpa [decide_eq_true_eq] using hcond
        rcases hand with ⟨hsub, hlt2⟩
        constructor
        · intro habs; exact Option.noConfusion habs
        · intro kvb hkvb
          have hkvb2 : kv = kvb := Option.some.inj hkvb
          subst hkvb2
          refine ⟨rfl, by simp, hsub, ?_⟩
          intro kv3 hkv3 hsub3
          rcases List.mem_append.mp hkv3 with h3 | h3
          · cases hacc : acc.1 with
            | none =>
              have h1 := h.1 hacc
              exact absurd hsub3 (by simp [h1.2 kv3 h3])
            | some kvv =>
              have hb := h.2 kvv hacc
              have h4 : kv3.1.length ≤ kvv.1.length := hb.2.2.2 kv3 h3 hsub3
              have h5 : (kvv.1.length : Int) < (kv.1.length : Int) := by
                rw [← hb.1]; exact hlt2
              have h6 : kvv.1.length < kv.1.length := by exact_mod_cast h5
              omega
          · rcases List.mem_singleton.mp h3 with rfl
            exact Nat.le_refl _
      · rw [if_neg hcond]
        have hdis : esSubcadena kv.1 d = false ∨ (kv.1.length : Int) ≤ acc.2 := by
          by_cases hs : esSubcadena kv.1 d = true
          · right
            by_contra hlen
            apply hcond
            simp only [hs, Bool.true_and, decide_eq_true_eq]
            exact not_le.mp hlen
          · left
            simpa using hs
        constructor
        · intro hnone
          have h1 := h.1 hnone
          refine ⟨h1.1, ?_⟩
          intro kv2 hkv2
          rcases List.mem_append.mp hkv2 with h2 | h2
          · exact h1.2 kv2 h2
          · rcases List.mem_singleton.mp h2 with rfl
            rcases hdis with hdis | hdis
            · exact hdis
            · exfalso
              rw [h1.1] at hdis
              omega
        · intro kvb hkvb
          have hb := h.2 kvb hkvb
          refine ⟨hb.1, List.mem_append.mpr (Or.inl hb.2.1), hb.2.2.1, ?_⟩
          intro kv3 hkv3 hsub3
          rcases List.mem_append.mp hkv3 with h3 | h3
          · exact hb.2.2.2 kv3 h3 hsub3
          · rcases List.mem_singleton.mp h3 with rfl
            rcases hdis with hdis | hdis
            · exact absurd hsub3 (by simp [hdis])
            · rw [hb.1] at hdis
              exact_mod_cast hdis
    have hres := ih _ _ hpaso
    simpa [buscarCriticoAux, List.append_assoc] using hres

/-- C4: in keyword (critical) mode the resolver returns an entry of the
keyword map whose keyword is contained in the description and whose length
is maximal among all contained keywords; when no keyword is contained it
returns nothing. -/
theorem buscarCritico_mas_largo (m : List (Str × ℚ)) (d : Str) :
    (∀ kv, buscarCritico m d = some kv →
      kv ∈ m ∧ esSubcadena kv.1 d = true
      ∧ ∀ kv2 ∈ m, esSubcadena kv2.1 d = true → kv2.1.length ≤ kv.1.length)
    ∧ (buscarCritico m d = none → ∀ kv ∈ m, esSubcadena kv.1 d = false) := by
  have hbase : InvCritico d [] (none, -1) := by
    constructor
    · intro _
      exact ⟨rfl, by simp⟩
    · intro kv habs
      exact Option.noConfusion habs
  have hinv := buscarCriticoAux_invariante d m (none, -1) [] hbase
  rw [List.nil_append] at hinv
  constructor
  · intro kv hkv
    have h2 := hinv.2 kv hkv
    exact ⟨h2.2.1, h2.2.2.1, h2.2.2.2⟩
  · intro hnone
    exact (hinv.1 hnone).2

/-- Witness for C4, with the spec's own example: among the overlapping
keywords "base granular" (1000) and "base" (900), a description containing
both resolves to the longer keyword and its price. -/
theorem buscarCritico_mas_largo_witness :
    buscarCritico [("base granular".toList, 1000), ("base".toList, 900)]
        ("xx base granular yy".toList) = some ("base granular".toList, 1000)
    ∧ esSubcadena ("base granular".toList) ("xx base granular yy".toList) = true
    ∧ ("base".toList).length ≤ ("base granular".toList).length := by
  have h : buscarCritico [("base granular".toList, 1000), ("base".toList, 900)]
      ("xx base granular yy".toList) = some ("base granular".toList, 1000) := by decide
  refine ⟨h, ((buscarCritico_mas_largo _ _).1 _ h).2.1, ?_⟩
  exact ((buscarCritico_mas_largo _ _).1 _ h).2.2 ("base".toList, 900)
    (by simp) (by decide)

/-! ### Idempotence of `normalizar` (C9): supporting lemmas -/

theorem blancoClase {c : Char} (hcl : esClase c = true) (hb : esEspacioRE c = true) :
    c = ' ' := by
  simp only [esEspacioRE, Bool.or_eq_true, beq_iff_eq] at hb
  rcases hb with ((((h | h) | h) | h) | h) | h
  · exact h
  all_goals (subst h; exact absurd hcl (by decide))

theorem esClase_limpiar {s : Str} {c : Char} (h : c ∈ limpiar s) : esClase c = true := by
  rcases List.mem_map.mp h with ⟨a, -, rfl⟩
  by_cases ha : esClase a = true
  · rw [if_pos ha]; exact ha
  · rw [if_neg ha]; decide

theorem mem_colapsarAux : ∀ (b : Bool) (s : Str) (c : Char),
    c ∈ colapsarAux b s → c ∈ s ∨ c = ' ' := by
  intro b s
  induction s generalizing b with
  | nil => intro c h; simp [colapsarAux] at h
  | cons x xs ih =>
    intro c h
    simp only [colapsarAux] at h
    by_cases hx : esEspacioRE x = true
    · rw [if_pos hx] at h
      by_cases hb : b = true
      · rw [if_pos hb] at h
        rcases ih true c h with h2 | h2
        · exact Or.inl (List.mem_cons_of_mem _ h2)
        · exact Or.inr h2
      · rw [if_neg hb] at h
        rcases List.mem_cons.mp h with rfl | h2
        · exact Or.inr rfl
        · rcases ih true c h2 with h3 | h3
          · exact Or.inl (List.mem_cons_of_mem _ h3)
          · exact Or.inr h3
    · rw [if_neg hx] at h
      rcases List.mem_cons.mp h with rfl | h2
      · exact Or.inl (List.mem_cons_self _ _)
      · rcases ih false c h2 with h3 | h3
        · exact Or.inl (List.mem_cons_of_mem _ h3)
        · exact Or.inr h3

theorem esClase_colapsar {s : Str} (hcl : ∀ c ∈ s, esClase c = true) :
    ∀ c ∈ colapsar s, esClase c = true := by
  intro c h
  rcases mem_colapsarAux false s c h with h2 | rfl
  · exact hcl c h2
  · decide

theorem mem_stripDer : ∀ (s : Str) (c : Char), c ∈ stripDer s → c ∈ s := by
  intro s
  induction s with
  | nil => intro c h; simp [stripDer] at h
  | cons x xs ih =>
    intro c h
    simp only [stripDer] at h
    rcases hxs : stripDer xs with - | ⟨d, ds⟩ <;> rw [hxs] at h
    · by_cases hx : esEspacioRE x = true
      · rw [if_pos hx] at h
        simp at h
      · rw [if_neg hx] at h
        rcases List.mem_singleton.mp h with rfl
        exact List.mem_cons_self _ _
    · rcases List.mem_cons.mp h with rfl | h2
      · exact List.mem_cons_self _ _
      · exact List.mem_cons_of_mem _ (ih c (hxs ▸ h2))

theorem mem_stripPy {s : Str} {c : Char} (h : c ∈ stripPy s) : c ∈ s := by
  have h2 := mem_stripDer _ _ h
  exact List.Sublist.mem h2 (List.dropWhile_sublist _)

theorem sinDobles_cola {c : Char} {t : Str} (h : sinDobles (c :: t) = true) :
    sinDobles t = true := by
  cases t with
  | nil => rfl
  | cons d ds =>
    simp only [sinDobles, Bool.and_eq_true] at h
    exact h.2

theorem sinDobles_par {c d : Char} {t : Str} (h : sinDobles (c :: d :: t) = true) :
    (esEspacioRE c && esEspacioRE d) = false := by
  cases hcd : (esEspacioRE c && esEspacioRE d) with
  | false => rfl
  | true =>
    simp only [sinDobles, hcd, Bool.not_true, Bool.false_and] at h
    exact absurd h (by simp)

theorem sinDobles_cons {c : Char} {t : Str} (ht : sinDobles t = true)
    (hc : ∀ d ds, t = d :: ds → (esEspacioRE c && esEspacioRE d) = false) :
    sinDobles (c :: t) = true := by
  cases t with
  | nil => rfl
  | cons d ds =>
    simp only [sinDobles, Bool.and_eq_true]
    exact ⟨by simp [hc d ds rfl], ht⟩

theorem colapsarAux_true_cabeza : ∀ (s : Str) (c : Char) (cs : Str),
    colapsarAux true s = c :: cs → esEspacioRE c = false := by
  intro s
  induction s with
  | nil => intro c cs h; simp [colapsarAux] at h
  | cons x xs ih =>
    intro c cs h
    simp only [colapsarAux] at h
    by_cases hx : esEspacioRE x = true
    · rw [if_pos hx] at h
      simp only [if_true] at h
      exact ih c cs h
    · rw [if_neg hx] at h
      injection h with h1 h2
      subst h1
      exact Bool.eq_false_iff.mpr hx

theorem sinDobles_colapsarAux : ∀ (s : Str) (b : Bool),
    sinDobles (colapsarAux b s) = true := by
  intro s
  induction s with
  | nil => intro b; rfl
  | cons x xs ih =>
    intro b
    simp only [colapsarAux]
    by_cases hx : esEspacioRE x = true
    · rw [if_pos hx]
      by_cases hb : b = true
      · rw [if_pos hb]
        exact ih true
      · rw [if_neg hb]
        refine sinDobles_cons (ih true) ?_
        intro d ds hd
        rw [colapsarAux_true_cabeza xs d ds hd, Bool.and_false]
    · rw [if_neg hx]
      refine sinDobles_cons (ih false) ?_
      intro d ds _
      rw [Bool.eq_false_iff.mpr hx, Bool.false_and]

theorem colapsarAux_fijo : ∀ (s : Str) (b : Bool),
    (∀ c ∈ s, esClase c = true) → sinDobles s = true →
    (b = false ∨ ∀ c cs, s = c :: cs → esEspacioRE c = false) →
    colapsarAux b s = s := by
  intro s
  induction s with
  | nil => intro b _ _ _; rfl
  | cons x xs ih =>
    intro b hcl hsd hb
    simp only [colapsarAux]
    by_cases hx : esEspacioRE x = true
    · have hxe : x = ' ' := blancoClase (hcl x (List.mem_cons_self _ _)) hx
      have hbf : b = false := by
        rcases hb with hb | hb
        · exact hb
        · exact absurd (hb x xs rfl) (by simp [hx])
      rw [if_pos hx, hbf, if_neg Bool.false_ne_true, hxe]
      congr 1
      apply ih true
      · intro c hc; exact hcl c (List.mem_cons_of_mem _ hc)
      · exact sinDobles_cola hsd
      · right
        intro c cs hcs
        subst hcs
        have hpar := sinDobles_par hsd
        cases hc2 : esEspacioRE c with
        | false => rfl
        | true => rw [hx, hc2] at hpar; simp at hpar
    · rw [if_neg hx]
      congr 1
      apply ih false
      · intro c hc; exact hcl c (List.mem_cons_of_mem _ hc)
      · exact sinDobles_cola hsd
      · exact Or.inl rfl

theorem stripDer_cons (x : Char) (xs : Str) :
    stripDer (x :: xs) = match stripDer xs with
      | [] => if esEspacioRE x then [] else [x]
      | d :: ds => x :: d :: ds := rfl

theorem stripDer_cabeza : ∀ (s : Str) (c : Char) (cs : Str),
    stripDer s = c :: cs → ∃ t, s = c :: t := by
  intro s
  cases s with
  | nil => intro c cs h; simp [stripDer] at h
  | cons x xs =>
    intro c cs h
    rw [stripDer_cons] at h
    rcases hxs : stripDer xs with - | ⟨d, ds⟩ <;> rw [hxs] at h
    · have h2 : (if esEspacioRE x then ([] : Str) else [x]) = c :: cs := h
      by_cases hx : esEspacioRE x = true
      · rw [if_pos hx] at h2
        exact List.noConfusion h2
      · rw [if_neg hx] at h2
        injection h2 with h1 h3
        exact ⟨xs, by rw [h1]⟩
    · have h2 : x :: d :: ds = c :: cs := h
      injection h2 with h1 h3
      exact ⟨xs, by rw [h1]⟩

theorem sinDobles_stripDer : ∀ (s : Str), sinDobles s = true →
    sinDobles (stripDer s) = true := by
  intro s
  induction s with
  | nil => intro _; rfl
  | cons x xs ih =>
    intro h
    rw [stripDer_cons]
    rcases hxs : stripDer xs with - | ⟨d, ds⟩
    · show sinDobles (if esEspacioRE x then ([] : Str) else [x]) = true
      by_cases hx : esEspacioRE x = true
      · rw [if_pos hx]; rfl
      · rw [if_neg hx]; rfl
    · show sinDobles (x :: d :: ds) = true
      have hds : sinDobles (d :: ds) = true := by
        rw [← hxs]; exact ih (sinDobles_cola h)
      rcases stripDer_cabeza xs d ds hxs with ⟨t, rfl⟩
      refine sinDobles_cons hds ?_
      intro e es he
      injection he with he1 he2
      subst he1
      exact sinDobles_par h

theorem stripDer_ultimo : ∀ (s : Str) (c : Char),
    (stripDer s).getLast? = some c → esEspacioRE c = false := by
  intro s
  induction s with
  | nil => intro c h; simp [stripDer] at h
  | cons x xs ih =>
    intro c h
    rw [stripDer_cons] at h
    rcases hxs : stripDer xs with - | ⟨d, ds⟩ <;> rw [hxs] at h
    · have h2 : (if esEspacioRE x then ([] : Str) else [x]).getLast? = some c := h
      by_cases hx : esEspacioRE x = true
      · rw [if_pos hx] at h2
        simp at h2
      · rw [if_neg hx] at h2
        simp only [List.getLast?_singleton] at h2
        have hxc := Option.some.inj h2
        subst hxc
        exact Bool.eq_false_iff.mpr hx
    · have h2 : (x :: d :: ds).getLast? = some c := h
      rw [List.getLast?_cons_cons, ← hxs] at h2
      exact ih c h2

theorem stripDer_fijo : ∀ (s : Str),
    (∀ c, s.getLast? = some c → esEspacioRE c = false) → stripDer s = s := by
  intro s
  induction s with
  | nil => intro _; rfl
  | cons x xs ih =>
    intro h
    cases xs with
    | nil =>
      have hx := h x (by simp)
      simp [stripDer, hx]
    | cons y ys =>
      have hxs : stripDer (y :: ys) = y :: ys := by
        apply ih
        intro c hc
        apply h
        rw [List.getLast?_cons_cons]
        exact hc
      rw [stripDer_cons, hxs]

theorem dropWhile_cabeza : ∀ (s : Str) (c : Char) (cs : Str),
    s.dropWhile esEspacioRE = c :: cs → esEspacioRE c = false := by
  intro s
  induction s with
  | nil => intro c cs h; simp [List.dropWhile] at h
  | cons x xs ih =>
    intro c cs h
    simp only [List.dropWhile] at h
    by_cases hx : esEspacioRE x = true
    · rw [hx] at h
      exact ih c cs h
    · have hx2 : esEspacioRE x = false := Bool.eq_false_iff.mpr hx
      rw [hx2] at h
      injection h with h1 h2
      subst h1
      exact hx2

theorem dropWhile_fijo : ∀ (s : Str),
    (∀ c cs, s = c :: cs → esEspacioRE c = false) → s.dropWhile esEspacioRE = s := by
  intro s h
  cases s with
  | nil => rfl
  | cons x xs =>
    have hx := h x xs rfl
    simp [List.dropWhile, hx]

theorem sinDobles_dropWhile : ∀ (s : Str), sinDobles s = true →
    sinDobles (s.dropWhile esEspacioRE) = true := by
  intro s
  induction s with
  | nil => intro _; rfl
  | cons x xs ih =>
    intro h
    simp only [List.dropWhile]
    by_cases hx : esEspacioRE x = true
    · rw [hx]
      exact ih (sinDobles_cola h)
    · rw [Bool.eq_false_iff.mpr hx]
      exact h

theorem map_id_en {f : Char → Char} : ∀ (s : Str), (∀ c ∈ s, f c = c) → s.map f = s := by
  intro s
  induction s with
  | nil => intro _; rfl
  | cons x xs ih =>
    intro h
    simp only [List.map_cons]
    rw [h x (List.mem_cons_self _ _), ih (fun c hc => h c (List.mem_cons_of_mem _ hc))]

theorem flatMap_id_en {f : Char → List Char} : ∀ (s : Str),
    (∀ c ∈ s, f c = [c]) → s.flatMap f = s := by
  intro s
  induction s with
  | nil => intro _; rfl
  | cons x xs ih =>
    intro h
    simp only [List.flatMap_cons]
    rw [h x (List.mem_cons_self _ _), ih (fun c hc => h c (List.mem_cons_of_mem _ hc))]
    rfl

theorem filter_id_en {p : Char → Bool} : ∀ (s : Str),
    (∀ c ∈ s, p c = true) → s.filter p = s := by
  intro s
  induction s with
  | nil => intro _; rfl
  | cons x xs ih =>
    intro h
    rw [List.filter_cons, if_pos (h x (List.mem_cons_self _ _)),
      ih (fun c hc => h c (List.mem_cons_of_mem _ hc))]

theorem stripPy_cabeza (s : Str) : ∀ (c : Char) (cs : Str),
    stripPy s = c :: cs → esEspacioRE c = false := by
  intro c cs h
  rcases stripDer_cabeza _ _ _ h with ⟨t, ht⟩
  exact dropWhile_cabeza s c t ht

theorem stripPy_ultimo (s : Str) : ∀ (c : Char),
    (stripPy s).getLast? = some c → esEspacioRE c = false := by
  intro c h
  exact stripDer_ultimo _ c h

theorem normalizado_propiedades (s : Str) :
    (∀ c ∈ stripPy (colapsar (limpiar s)), esClase c = true)
    ∧ sinDobles (stripPy (colapsar (limpiar s))) = true := by
  constructor
  · intro c hc
    exact esClase_colapsar (fun d hd => esClase_limpiar hd) c (mem_stripPy hc)
  · exact sinDobles_stripDer _ (sinDobles_dropWhile _ (sinDobles_colapsarAux _ false))

theorem pipeline_fijo {s : Str} (hcl : ∀ c ∈ s, esClase c = true)
    (hsd : sinDobles s = true)
    (hcab : ∀ c cs, s = c :: cs → esEspacioRE c = false)
    (hult : ∀ c, s.getLast? = some c → esEspacioRE c = false) :
    stripPy (colapsar (limpiar s)) = s := by
  have hlim : limpiar s = s :=
    map_id_en s (fun c hc => if_pos (hcl c hc))
  have hcol : colapsar s = s :=
    colapsarAux_fijo s false hcl hsd (Or.inl rfl)
  rw [hlim, hcol, stripPy, dropWhile_fijo s hcab, stripDer_fijo s hult]

/-- C9: `normalizar` is idempotent, for any Unicode tables that behave like
the real ones on the output alphabet `[a-z0-9 ]` (lower-casing fixes it,
NFD does not decompose it, none of it is a combining mark). -/
theorem normalizar_idempotente (u : Unicode) (hu : u.FielASCII) (s : Option Str) :
    normalizar u (normalizar u s) = normalizar u s := by
  cases s with
  | none => rfl
  | some t =>
    simp only [normalizar]
    congr 1
    set N := stripPy (colapsar (limpiar
      (((t.map u.lower).flatMap u.nfd).filter (fun c => !u.esMn c)))) with hN
    have hcl : ∀ c ∈ N, esClase c = true := (normalizado_propiedades _).1
    have hsd : sinDobles N = true := (normalizado_propiedades _).2
    have h1 : N.map u.lower = N := map_id_en N (fun c hc => (hu c (hcl c hc)).1)
    have h2 : N.flatMap u.nfd = N := flatMap_id_en N (fun c hc => (hu c (hcl c hc)).2.1)
    have h3 : N.filter (fun c => !u.esMn c) = N :=
      filter_id_en N (fun c hc => by rw [(hu c (hcl c hc)).2.2]; rfl)
    rw [h1, h2, h3]
    exact pipeline_fijo hcl hsd (stripPy_cabeza _) (stripPy_ultimo _)

/-- Witness for C9 at a concrete faithful Unicode instance and input. -/
theorem normalizar_idempotente_witness :
    unicodeId.FielASCII
    ∧ normalizar unicodeId (normalizar unicodeId (some ("  excavacion   mecanica 3 ".toList)))
      = normalizar unicodeId (some ("  excavacion   mecanica 3 ".toList)) :=
  ⟨fun _ _ => ⟨rfl, rfl, rfl⟩,
   normalizar_idempotente unicodeId (fun _ _ => ⟨rfl, rfl, rfl⟩)
     (some ("  excavacion   mecanica 3 ".toList))⟩

end ControlActas
